import Mathlib

/-!
Verification development for the Patel-Chat client-side chat application.

The JavaScript sources are shallowly embedded as Lean definitions:

* `putInStore` / `deleteFromStore` / `getFromStore` model the IndexedDB
  wrapper in `src/services/indexedDBService.js` as a key-value map per
  named store (the store keyPath is the item's `id` field).
* `calculateNextStateAfterDeletion` and `createNewChatSession` embed
  `src/services/chatLogicService.js`.
* `incrementStat`, `checkAchievements` and `updateStreakDays` embed
  `src/services/statsService.js`; JS object fields that may be absent
  are modelled with `Option Int`, and the JS idiom `x || 0` becomes
  `Option.getD 0`.
* `tokenize`, `calculateTF`, `updateIDF`, `generateEmbedding`,
  `cosineSimilarity` and `semanticSearch` embed
  `src/services/embeddingService.js`.  The floating-point functions
  `Math.sqrt` and `Math.log` are taken as abstract parameters
  (`sqrt : Rat -> Rat`, `log : Rat -> Rat`); facts needed about them
  (non-negativity of `sqrt`, `log 2 /= 0`) appear as explicit
  hypotheses.  JS `Map` objects (which preserve insertion order) are
  modelled as association lists with `mapSet` / `mapGet`.
* `extractCodeBlocks` embeds the fenced-code-block scanner of the code
  editor component: the regex loop over a text is modelled by a
  character-list scanner that at each position tries to match
  `fence (\w+)? \n? lazy-content fence` and otherwise advances one
  character, exactly like the global regex `exec` loop.
-/

/-! ## IndexedDB persistence shim (`indexedDBService.js`) -/

/-- An item stored in a named object store.  IndexedDB extracts the key
from the item's `id` property (keyPath `id`); the rest of the record is
abstracted as an opaque payload. -/
structure DBItem where
  id : String
  payload : String
deriving DecidableEq, Repr

/-- The state of the database: each named store maps ids to items. -/
def DBState : Type := String → String → Option DBItem

/-- The freshly created database: every store is empty. -/
def emptyDB : DBState := fun _ _ => none

/-- `putInStore(storeName, item)` adds or updates `item` in the store,
keyed by `item.id` (the store's keyPath). -/
def putInStore (db : DBState) (storeName : String) (item : DBItem) : DBState :=
  fun s k => if s = storeName ∧ k = item.id then some item else db s k

/-- `deleteFromStore(storeName, id)` removes the entry with key `id`. -/
def deleteFromStore (db : DBState) (storeName : String) (id : String) : DBState :=
  fun s k => if s = storeName ∧ k = id then none else db s k

/-- `getFromStore(storeName, id)` resolves with the stored item, or with
`null` (here `none`) when no entry has that key (`request.result || null`). -/
def getFromStore (db : DBState) (storeName : String) (id : String) : Option DBItem :=
  db storeName id

/-- A single mutating database operation. -/
inductive DBOp where
  | put (storeName : String) (item : DBItem)
  | delete (storeName : String) (id : String)
deriving DecidableEq, Repr

/-- Apply one operation to the database. -/
def applyDBOp (db : DBState) : DBOp → DBState
  | .put s it => putInStore db s it
  | .delete s i => deleteFromStore db s i

/-- Apply a sequence of operations, oldest first. -/
def applyDBOps (db : DBState) (ops : List DBOp) : DBState :=
  ops.foldl applyDBOp db

/-- Whether an operation stores an item with key `id` into `storeName`. -/
def opStores (op : DBOp) (storeName id : String) : Bool :=
  match op with
  | .put s it => s == storeName && it.id == id
  | .delete _ _ => false

/-! ## Chat logic (`chatLogicService.js`) and the message data model -/

/-- A chat message, after `types.js`: the `sender` field is documented
there as `'user' | 'bot'`. -/
structure Message where
  id : String
  sender : String
  text : String
  timestamp : Nat
  isLoading : Bool
  isError : Option Bool := none
deriving DecidableEq, Repr

/-- A chat session, after `types.js`. -/
structure ChatSession where
  id : String
  title : String
  messages : List Message
  createdAt : Nat
  lastUpdatedAt : Nat
  systemInstruction : String := ""
deriving DecidableEq, Repr

/-- `createNewChatSession()` builds a fresh session around the welcome
message; `Date.now()` is passed in as the `timestamp` argument. -/
def createNewChatSession (timestamp : Nat) : ChatSession :=
  { id := toString timestamp
    title := "New Chat"
    messages := [{
      id := toString (timestamp + 1)
      sender := "bot"
      text := "Welcome to Patel Chat! I\x27m your AI assistant, ready to help with your queries, search the web, or just chat. How can I assist you today?"
      timestamp := timestamp + 1
      isLoading := false }]
    createdAt := timestamp
    lastUpdatedAt := timestamp
    systemInstruction := "" }

/-- The user message built by `ChatArea.handleSendMessage`
(`id: msg-${Date.now()}`, `sender: 'user'`; no `isLoading` field, here
false). -/
def createUserMessage (now : Nat) (text : String) : Message :=
  { id := "msg-" ++ toString now
    sender := "user"
    text := text
    timestamp := now
    isLoading := false }

/-- The AI reply message built by `ChatArea.handleSendMessage` after a
successful `sendMessage` call (`sender: 'ai'`). -/
def createAiMessage (now : Nat) (response : String) : Message :=
  { id := "msg-" ++ toString now ++ "-ai"
    sender := "ai"
    text := response
    timestamp := now
    isLoading := false }

/-- The inline error message built by `ChatArea.handleSendMessage`'s
catch branch (`sender: 'ai'`, `isError: true`). -/
def createErrorMessage (now : Nat) (errText : String) : Message :=
  { id := "msg-" ++ toString now ++ "-error"
    sender := "ai"
    text := "Sorry, I encountered an error: " ++ errText
    timestamp := now
    isLoading := false
    isError := some true }

/-- `calculateNextStateAfterDeletion(currentSessions, sessionIdToDelete,
currentActiveSessionId)`: drops every session with the deleted id and
chooses the next active session id.  `findIndex` returning `-1` is
modelled by `findIdx?` returning `none`; the JS index accesses
`updatedSessions[originalIndexToDelete]` and
`updatedSessions[updatedSessions.length - 1]` become `l[idx]?` and
`l.getLast?` on a list known to be nonempty. -/
def calculateNextStateAfterDeletion (currentSessions : List ChatSession)
    (sessionIdToDelete : String) (currentActiveSessionId : Option String) :
    List ChatSession × Option String :=
  let originalIndexToDelete := currentSessions.findIdx? (fun s => s.id == sessionIdToDelete)
  let updatedSessions := currentSessions.filter (fun s => !(s.id == sessionIdToDelete))
  let newActiveSessionId : Option String :=
    if currentActiveSessionId = some sessionIdToDelete then
      match updatedSessions with
      | [] => none
      | u :: us =>
        match originalIndexToDelete with
        | some idx =>
          match (u :: us)[idx]? with
          | some s => some s.id
          | none => ((u :: us).getLast?).map (fun s => s.id)
        | none => some u.id
    else
      match updatedSessions with
      | [] => none
      | u :: us =>
        match currentActiveSessionId with
        | none => some u.id
        | some a => if (u :: us).any (fun s => s.id == a) then some a else some u.id
  (updatedSessions, newActiveSessionId)

/-! ## Stats and achievements (`statsService.js`) -/

/-- The user-stats record, after `statsService.js`'s
`initializeUserStats`.  Numeric fields are `Option Int` so that a field
absent from the stored JS object is representable; the JS idiom
`stats.field || 0` is modelled as `Option.getD 0`.  The achievements id
list (`stats.achievements || []`) is kept as a plain list. -/
structure UserStats where
  totalMessages : Option Int := none
  totalChats : Option Int := none
  totalQuickPrompts : Option Int := none
  streakDays : Option Int := none
  timeSpentChatting : Option Int := none
  joinDate : Option Int := none
  lastActiveDate : Option Int := none
  achievements : List String := []
deriving DecidableEq, Repr

/-- The numeric field names `incrementStat` can be called with. -/
inductive StatName where
  | totalMessages
  | totalChats
  | totalQuickPrompts
  | streakDays
  | timeSpentChatting
  | joinDate
  | lastActiveDate
deriving DecidableEq, Repr

/-- Dynamic field read `stats[statName]`. -/
def getStat (s : UserStats) : StatName → Option Int
  | .totalMessages => s.totalMessages
  | .totalChats => s.totalChats
  | .totalQuickPrompts => s.totalQuickPrompts
  | .streakDays => s.streakDays
  | .timeSpentChatting => s.timeSpentChatting
  | .joinDate => s.joinDate
  | .lastActiveDate => s.lastActiveDate

/-- Dynamic field write `stats[statName] = v`. -/
def setStat (s : UserStats) (n : StatName) (v : Int) : UserStats :=
  match n with
  | .totalMessages => { s with totalMessages := some v }
  | .totalChats => { s with totalChats := some v }
  | .totalQuickPrompts => { s with totalQuickPrompts := some v }
  | .streakDays => { s with streakDays := some v }
  | .timeSpentChatting => { s with timeSpentChatting := some v }
  | .joinDate => { s with joinDate := some v }
  | .lastActiveDate => { s with lastActiveDate := some v }

/-- `incrementStat(statName, amount)`:
`currentStats[statName] = (currentStats[statName] || 0) + amount`,
then the whole record is saved back. -/
def incrementStat (s : UserStats) (statName : StatName) (amount : Int) : UserStats :=
  setStat s statName ((getStat s statName).getD 0 + amount)

/-- One row of the fixed achievement rule table in `checkAchievements`. -/
structure AchievementRule where
  id : String
  name : String
  description : String
  cond : UserStats → Bool
  icon : String

/-- The fixed table of achievement rules from `checkAchievements`,
in source order.  Each condition is the source's threshold test; a JS
comparison against `undefined` is false, which `Option.getD 0` with the
strictly positive thresholds reproduces. -/
def achievementsTable : List AchievementRule :=
  [ { id := "first_message", name := "First Steps",
      description := "Send your first message",
      cond := fun s => decide (1 ≤ (s.totalMessages).getD 0), icon := "A" },
    { id := "chat_starter", name := "Chat Starter",
      description := "Create your first chat",
      cond := fun s => decide (1 ≤ (s.totalChats).getD 0), icon := "B" },
    { id := "conversationalist", name := "Conversationalist",
      description := "Send 50 messages",
      cond := fun s => decide (50 ≤ (s.totalMessages).getD 0), icon := "C" },
    { id := "chat_master", name := "Chat Master",
      description := "Create 10 chat sessions",
      cond := fun s => decide (10 ≤ (s.totalChats).getD 0), icon := "D" },
    { id := "prompt_creator", name := "Prompt Creator",
      description := "Create your first quick prompt",
      cond := fun s => decide (1 ≤ (s.totalQuickPrompts).getD 0), icon := "E" },
    { id := "efficiency_expert", name := "Efficiency Expert",
      description := "Create 5 quick prompts",
      cond := fun s => decide (5 ≤ (s.totalQuickPrompts).getD 0), icon := "F" },
    { id := "marathon_chatter", name := "Marathon Chatter",
      description := "Send 200 messages",
      cond := fun s => decide (200 ≤ (s.totalMessages).getD 0), icon := "G" },
    { id := "week_warrior", name := "Week Warrior",
      description := "Use the app for 7 consecutive days",
      cond := fun s => decide (7 ≤ (s.streakDays).getD 0), icon := "H" },
    { id := "power_user", name := "Power User",
      description := "Spend 60 minutes chatting",
      cond := fun s => decide (60 ≤ (s.timeSpentChatting).getD 0), icon := "I" },
    { id := "explorer", name := "Explorer",
      description := "Create 25 chat sessions",
      cond := fun s => decide (25 ≤ (s.totalChats).getD 0), icon := "J" } ]

/-- The `for (const achievement of achievements)` loop body of
`checkAchievements`: walks the rule table, collecting rules whose
condition holds and whose id is not yet in the (growing) id list, and
pushing their ids onto that list. -/
def checkAchievementsLoop (stats : UserStats) :
    List AchievementRule → List String → List AchievementRule × List String
  | [], current => ([], current)
  | a :: rest, current =>
    if !(current.contains a.id) && a.cond stats then
      let r := checkAchievementsLoop stats rest (current ++ [a.id])
      (a :: r.1, r.2)
    else
      checkAchievementsLoop stats rest current

/-- `checkAchievements(stats)`: returns the newly earned achievements and
the stats as persisted afterwards (`updateUserStats` is only called when
at least one new achievement was earned, but the id list is unchanged in
that case anyway). -/
def checkAchievements (stats : UserStats) : List AchievementRule × UserStats :=
  let r := checkAchievementsLoop stats achievementsTable stats.achievements
  (r.1, if r.1.isEmpty then stats else { stats with achievements := r.2 })

/-- Milliseconds per day, as used by `updateStreakDays`. -/
def msPerDay : Int := 24 * 60 * 60 * 1000

/-- The calendar day containing a timestamp (the model of
`new Date(t).toDateString()`: two timestamps compare equal exactly when
they fall in the same day). -/
def dayOf (t : Int) : Int := t / msPerDay

/-- `updateStreakDays()`: no-op when last active today; streak + 1 when
last active yesterday; otherwise the streak resets to 1.  In the latter
two cases `lastActiveDate` is set to now and the record is saved via
`updateUserStats` (a field-wise merge). -/
def updateStreakDays (now : Int) (stats : UserStats) : UserStats :=
  let today := dayOf now
  let lastActive := stats.lastActiveDate.map dayOf
  let yesterday := dayOf (now - msPerDay)
  if lastActive = some today then
    stats
  else if lastActive = some yesterday then
    { stats with streakDays := some ((stats.streakDays).getD 0 + 1), lastActiveDate := some now }
  else
    { stats with streakDays := some 1, lastActiveDate := some now }

/-! ## Embedding service (`embeddingService.js`) -/

/-- Lookup in a JS `Map` modelled as an insertion-ordered association
list. -/
def mapGet {α : Type} (m : List (String × α)) (k : String) : Option α :=
  (m.find? (fun p => p.1 == k)).map (fun p => p.2)

/-- `Map.set`: update in place when the key exists (keeping its
position), otherwise append the new key at the end, as JS `Map`
insertion order prescribes. -/
def mapSet {α : Type} (m : List (String × α)) (k : String) (v : α) : List (String × α) :=
  if m.any (fun p => p.1 == k) then
    m.map (fun p => if p.1 == k then (k, v) else p)
  else
    m ++ [(k, v)]

/-- A character counts for the regex class `\w`. -/
def isWordChar (c : Char) : Bool := c.isAlphanum || c == '_'

/-- Split a character list at spaces, accumulating the current token in
reverse; empty fragments are dropped (the final length filter would
drop them anyway). -/
def splitTokensAux : List Char → List Char → List String
  | [], acc => if acc.isEmpty then [] else [String.mk acc.reverse]
  | c :: cs, acc =>
    if c = ' ' then
      if acc.isEmpty then splitTokensAux cs []
      else String.mk acc.reverse :: splitTokensAux cs []
    else splitTokensAux cs (c :: acc)

/-- `tokenize(text)`: lower-case, replace every non-`\w` character by a
space, split on whitespace, keep tokens longer than two characters. -/
def tokenize (text : String) : List String :=
  (splitTokensAux (text.data.map (fun c =>
      if isWordChar c.toLower then c.toLower else ' ')) []).filter
    (fun token => token.length > 2)

/-- `calculateTF(tokens)`: occurrence counts normalised by the document
length. -/
def calculateTF (tokens : List String) : List (String × Rat) :=
  let totalTokens : Rat := tokens.length
  let tf := tokens.foldl (fun m token => mapSet m token ((mapGet m token).getD 0 + 1)) []
  tf.map (fun p => (p.1, p.2 / totalTokens))

/-- The mutable state of the `SimpleEmbeddingService` instance:
document-frequency counts per token, IDF scores, and the number of
documents seen. -/
structure EmbState where
  vocabulary : List (String × Nat) := []
  idfScores : List (String × Rat) := []
  documentCount : Nat := 0

/-- The service state at construction time. -/
def emptyEmbState : EmbState := {}

/-- First-occurrence-ordered deduplication, the model of
`new Set(tokens)` iteration. -/
def uniqueTokens (tokens : List String) : List String :=
  tokens.foldl (fun acc t => if acc.contains t then acc else acc ++ [t]) []

/-- `updateIDF(tokens)`: bump the document frequency of each distinct
token, increment the document count, then recompute
`idfScores[token] = log(documentCount / docCount)` for every vocabulary
entry.  `log` abstracts `Math.log`. -/
def updateIDF (log : Rat → Rat) (st : EmbState) (tokens : List String) : EmbState :=
  let vocabulary := (uniqueTokens tokens).foldl
    (fun m token => mapSet m token ((mapGet m token).getD 0 + 1)) st.vocabulary
  let documentCount := st.documentCount + 1
  let idfScores := vocabulary.foldl
    (fun m p => mapSet m p.1 (log ((documentCount : Rat) / (p.2 : Rat)))) st.idfScores
  { vocabulary := vocabulary, idfScores := idfScores, documentCount := documentCount }

/-- `generateEmbedding(text)`: TF times IDF over the first 100 vocabulary
tokens, zero-padded and truncated to exactly 100 entries. -/
def generateEmbedding (st : EmbState) (text : String) : List Rat :=
  let tokens := tokenize text
  let tf := calculateTF tokens
  let topTokens := (st.vocabulary.map (fun p => p.1)).take 100
  let embedding := topTokens.map (fun token =>
    ((mapGet tf token).getD 0) * ((mapGet st.idfScores token).getD 0))
  (embedding ++ List.replicate (100 - embedding.length) 0).take 100

/-- `cosineSimilarity(vec1, vec2)`: 0 on a length mismatch, 0 when either
norm is zero, otherwise the dot product over the product of the norms.
`sqrtQ` abstracts `Math.sqrt`. -/
def cosineSimilarity (sqrtQ : Rat → Rat) (vec1 vec2 : List Rat) : Rat :=
  if vec1.length ≠ vec2.length then 0
  else
    let dotProduct := (List.zipWith (fun a b => a * b) vec1 vec2).sum
    let norm1 := (vec1.map (fun x => x * x)).sum
    let norm2 := (vec2.map (fun x => x * x)).sum
    if norm1 = 0 ∨ norm2 = 0 then 0
    else dotProduct / (sqrtQ norm1 * sqrtQ norm2)

/-- A stored embedding record, as written by `processChatEmbeddings`. -/
structure EmbeddingRecord where
  id : String
  chatId : String
  messageId : String
  text : String
  embedding : List Rat
  timestamp : Nat
deriving DecidableEq, Repr

/-- An embedding record together with the similarity attached by
`semanticSearch` (`{...embedding, similarity}`). -/
structure SearchResult extends EmbeddingRecord where
  similarity : Rat
deriving DecidableEq, Repr

/-- The map / filter / sort / slice pipeline at the end of
`semanticSearch`.  The JS comparator `(a, b) => b.similarity - a.similarity`
orders by descending similarity; JS `Array.sort` is stable, hence the
stable `mergeSort`. -/
def rankResults (sqrtQ : Rat → Rat) (queryEmbedding : List Rat)
    (embeddings : List EmbeddingRecord) (limit : Nat) : List SearchResult :=
  let results := embeddings.map (fun e =>
    { toEmbeddingRecord := e,
      similarity := cosineSimilarity sqrtQ queryEmbedding e.embedding })
  let filtered := results.filter (fun r => decide ((1 : Rat) / 10 < r.similarity))
  (filtered.mergeSort (fun a b => decide (b.similarity ≤ a.similarity))).take limit

/-- `semanticSearch(query, chatId, limit)`.  The storage read
`getEmbeddingsByChat(chatId)` is passed in as `fetch`; when it throws,
the surrounding `try`/`catch` returns `[]`.  A `null` / too-short query
returns `[]` immediately, and a `null` `chatId` makes the searched set
empty. -/
def semanticSearch (sqrtQ : Rat → Rat) (st : EmbState) (query : Option String)
    (chatId : Option String) (fetch : Except String (List EmbeddingRecord))
    (limit : Nat) : List SearchResult :=
  match query with
  | none => []
  | some q =>
    if q.length < 3 then []
    else
      let queryEmbedding := generateEmbedding st q
      match chatId with
      | some _ =>
        match fetch with
        | .error _ => []
        | .ok embeddings => rankResults sqrtQ queryEmbedding embeddings limit
      | none => rankResults sqrtQ queryEmbedding [] limit

/-! ## Fenced code block extraction (code editor component) -/

/-- The backtick character of the triple-backtick fence. -/
def backtick : Char := Char.ofNat 96

/-- The triple-backtick fence. -/
def fence : List Char := [backtick, backtick, backtick]

/-- One extracted code block, as pushed by the `exec` loop of
`extractCodeBlocks`. -/
structure CodeBlock where
  language : String
  code : String
  fullMatch : String
deriving DecidableEq, Repr

/-- Greedy `(\w+)?`: the maximal leading run of word characters. -/
def takeWord : List Char → List Char × List Char
  | [] => ([], [])
  | c :: cs =>
    if isWordChar c then
      let r := takeWord cs
      (c :: r.1, r.2)
    else
      ([], c :: cs)

/-- Lazy `[\s\S]*?` followed by the closing fence: split off the
shortest prefix after which a triple backtick occurs. -/
def findClose : List Char → Option (List Char × List Char)
  | c1 :: c2 :: c3 :: rest =>
    if c1 == backtick && c2 == backtick && c3 == backtick then
      some ([], rest)
    else
      (findClose (c2 :: c3 :: rest)).map (fun p => (c1 :: p.1, p.2))
  | _ => none

/-- Greedy `\n?`: consume one leading newline when present. -/
def takeNewline : List Char → List Char × List Char
  | c :: r => if c == '\n' then (['\n'], r) else ([], c :: r)
  | [] => ([], [])

/-- Try to match ``` `(\w+)?\n?([\s\S]*?)` ``` between fences at the head of
the text; on success return the block and the remaining text after the
match.  The greedy tag / newline choices are the regex's preferred ones,
and they succeed whenever any choice does because neither `\w`
characters nor the optional newline can overlap a closing fence. -/
def matchBlockAt (s : List Char) : Option (CodeBlock × List Char) :=
  match s with
  | c1 :: c2 :: c3 :: rest =>
    if c1 == backtick && c2 == backtick && c3 == backtick then
      let w := takeWord rest
      let nl := takeNewline w.2
      match findClose nl.2 with
      | some (content, rest') =>
        some ({ language := if w.1.isEmpty then "text" else String.mk w.1,
                code := (String.mk content).trim,
                fullMatch := String.mk (fence ++ w.1 ++ nl.1 ++ content ++ fence) }, rest')
      | none => none
    else none
  | _ => none

/-- The global-regex `exec` loop: emit a match when one starts at the
current position, otherwise advance one character.  `fuel` bounds the
number of steps; `extractCodeBlocks` supplies the text length, which
suffices because every step consumes at least one character. -/
def scanBlocks : Nat → List Char → List CodeBlock
  | 0, _ => []
  | fuel + 1, s =>
    match matchBlockAt s with
    | some (b, rest) => b :: scanBlocks fuel rest
    | none =>
      match s with
      | [] => []
      | _ :: t => scanBlocks fuel t

/-- `extractCodeBlocks(text)`. -/
def extractCodeBlocks (text : String) : List CodeBlock :=
  scanBlocks text.data.length text.data

/-- Whether a triple backtick occurs anywhere in the text. -/
def hasFence : List Char → Bool
  | c1 :: c2 :: c3 :: rest =>
    (c1 == backtick && c2 == backtick && c3 == backtick) || hasFence (c2 :: c3 :: rest)
  | _ => false

/-- Alternation `g0 ++ m0 ++ g1 ++ m1 ++ ... ++ gn` of gaps and matches;
used to state that the extracted blocks occur in the text in order. -/
def joinAlt : List (List Char) → List (List Char) → List Char
  | [], _ => []
  | g :: _, [] => g
  | g :: gs, m :: ms => g ++ (m ++ joinAlt gs ms)

/-! ## Auxiliary definitions for the statements and their instances -/

/-- Structural well-formedness of an extracted code block: its full
match is a pair of fences around an optional word tag, an optional
newline and the raw content; the language is the tag or `text`; the code
is the trimmed content. -/
def BlockWF (b : CodeBlock) : Prop :=
  ∃ tag nl content,
    b.fullMatch = String.mk (fence ++ tag ++ nl ++ content ++ fence) ∧
    tag.all isWordChar = true ∧
    (nl = [] ∨ nl = ['\n']) ∧
    b.language = (if tag.isEmpty then "text" else String.mk tag) ∧
    b.code = (String.mk content).trim

/-- The input/output relation of the regex `exec` loop: at every
position of the text either no match starts there (`skip`, advancing by
one character) or the match starting there is emitted (`found`,
continuing after it).  `Scan s bs` holding for the extractor's output
states soundness and completeness at once: the blocks appear in order,
and no match starts at any skipped position. -/
inductive Scan : List Char → List CodeBlock → Prop where
  | nil : Scan [] []
  | skip (c : Char) (t : List Char) (bs : List CodeBlock) :
      matchBlockAt (c :: t) = none → Scan t bs → Scan (c :: t) bs
  | found (s : List Char) (b : CodeBlock) (rest : List Char) (bs : List CodeBlock) :
      matchBlockAt s = some (b, rest) → Scan rest bs → Scan s (b :: bs)

/-- Whether no fenced block starts at any position of the text: this is
what ``text contains no fenced triple-backtick block'' means for the
regex (a lone unclosed fence, for example, satisfies it). -/
def noBlockAnywhere : List Char → Bool
  | [] => true
  | c :: t => (matchBlockAt (c :: t)).isNone && noBlockAnywhere t

/-- A stand-in for `Math.log` used to instantiate theorems: any function
with `log 2 ≠ 0` fits. -/
def logTest : Rat → Rat := fun q => q - 1

/-- The welcome message of the session created at timestamp 0. -/
def welcomeMessage0 : Message :=
  { id := "1"
    sender := "bot"
    text := "Welcome to Patel Chat! I\x27m your AI assistant, ready to help with your queries, search the web, or just chat. How can I assist you today?"
    timestamp := 1
    isLoading := false }

/-- A sample stats record: one earned achievement, counters past a few
thresholds. -/
def sampleStats : UserStats :=
  { totalMessages := some 60, totalChats := some 1, achievements := ["first_message"] }

/-- Sample stats for a second `checkAchievements` call: the achievements
list persisted by the first call on `sampleStats`, with the message
counter grown past the next threshold. -/
def statsAfterFirst : UserStats :=
  { totalMessages := some 300, totalChats := some 1,
    achievements := ["first_message", "chat_starter", "conversationalist"] }

/-- The `marathon_chatter` row of the achievement rule table. -/
def marathonChatterRule : AchievementRule :=
  { id := "marathon_chatter", name := "Marathon Chatter",
    description := "Send 200 messages",
    cond := fun s => decide (200 ≤ (s.totalMessages).getD 0), icon := "G" }

/-- A sample stored item. -/
def itemW : DBItem := { id := "42", payload := "session-data" }

/-- A sample operation log that never stores key 42 into `chatSessions`. -/
def opsW : List DBOp :=
  [.put "quickPrompts" { id := "42", payload := "other-store" },
   .put "chatSessions" { id := "7", payload := "other-key" },
   .delete "chatSessions" "42"]

/-- A sample timestamp: five milliseconds into day 3. -/
def nowW : Int := 3 * msPerDay + 5

/-- Sample stats last active on day 2, with a running streak. -/
def streakStats : UserStats :=
  { streakDays := some 4, lastActiveDate := some (2 * msPerDay + 100) }

/-- Sample sessions for the deletion logic. -/
def sessionsW : List ChatSession :=
  [{ id := "a", title := "t1", messages := [], createdAt := 0, lastUpdatedAt := 0 },
   { id := "b", title := "t2", messages := [], createdAt := 1, lastUpdatedAt := 1 },
   { id := "c", title := "t3", messages := [], createdAt := 2, lastUpdatedAt := 2 }]

/-- A stand-in for `Math.sqrt` used to instantiate theorems: any
non-negative function fits the hypotheses used about it. -/
def absQ : Rat → Rat := fun q => |q|

/-! ## Theorems -/

/-- Helper: a database with no entry at `(storeName, id)` still has none
after any operations none of which stores that key there. -/
theorem applyDBOps_no_store (storeName id : String) :
    ∀ (ops : List DBOp) (db : DBState),
      getFromStore db storeName id = none →
      (∀ op ∈ ops, opStores op storeName id = false) →
      getFromStore (applyDBOps db ops) storeName id = none := by
  intro ops
  induction ops with
  | nil => intro db h _; exact h
  | cons op rest ih =>
    intro db h hops
    have hop := hops op (List.mem_cons_self op rest)
    have hrest : ∀ o ∈ rest, opStores o storeName id = false :=
      fun o ho => hops o (List.mem_cons_of_mem op ho)
    refine ih (applyDBOp db op) ?_ hrest
    cases op with
    | put s it =>
      simp only [opStores, Bool.and_eq_false_imp] at hop
      simp only [applyDBOp, getFromStore, putInStore]
      by_cases hs : storeName = s ∧ id = it.id
      · exfalso
        rcases hs with ⟨hs1, hs2⟩
        subst hs1
        have := hop (by simp)
        simp [hs2] at this
      · rw [if_neg (by tauto)]
        exact h
    | delete s i =>
      simp only [applyDBOp, getFromStore, deleteFromStore]
      by_cases hs : s = storeName ∧ i = id
      · rw [if_pos (by tauto)]
      · rw [if_neg (by tauto)]
        exact h

/-- C1: modelling each named store as a key-value map keyed by the
item's `id`: a `get` after a `put` returns the stored item; a `get`
after a `delete` of that id returns `null`; and a `get` of an id that no
operation ever stored returns `null`. -/
theorem indexedDB_kv_spec (db : DBState) (storeName : String) (item : DBItem)
    (id : String) (ops : List DBOp) :
    getFromStore (putInStore db storeName item) storeName item.id = some item ∧
    getFromStore (deleteFromStore db storeName id) storeName id = none ∧
    ((∀ op ∈ ops, opStores op storeName id = false) →
      getFromStore (applyDBOps emptyDB ops) storeName id = none) := by
  refine ⟨?_, ?_, ?_⟩
  · simp [getFromStore, putInStore]
  · simp [getFromStore, deleteFromStore]
  · intro hops
    exact applyDBOps_no_store storeName id ops emptyDB rfl hops

/-- Instance of `indexedDB_kv_spec` on a concrete store, item and
operation log. -/
theorem indexedDB_kv_spec_witness :
    getFromStore (putInStore emptyDB "chatSessions" itemW) "chatSessions" itemW.id = some itemW ∧
    getFromStore (deleteFromStore emptyDB "chatSessions" "42") "chatSessions" "42" = none ∧
    getFromStore (applyDBOps emptyDB opsW) "chatSessions" "42" = none :=
  ⟨(indexedDB_kv_spec emptyDB "chatSessions" itemW "42" opsW).1,
   (indexedDB_kv_spec emptyDB "chatSessions" itemW "42" opsW).2.1,
   (indexedDB_kv_spec emptyDB "chatSessions" itemW "42" opsW).2.2 (by decide)⟩

/-- C4 counterexample: the claim that every message sender is `user` or
`assistant` fails on the welcome message placed by
`createNewChatSession`, whose sender is `bot`. -/
theorem createNewChatSession_sender_counterexample :
    ¬ (∀ m ∈ (createNewChatSession 0).messages,
        m.sender = "user" ∨ m.sender = "assistant") := by
  decide

/-- C4 (amended): every message the program creates — the welcome
message placed by `createNewChatSession` and the user, AI-reply and
error messages built by `ChatArea.handleSendMessage` — has sender
`user`, `bot` or `ai`; the value `assistant` is never used.  The
quantification ranges over every message-creation site of the source
with arbitrary contents. -/
theorem createdMessage_sender_spec (timestamp : Nat) (text response errText : String) :
    ∀ m ∈ (createNewChatSession timestamp).messages ++
        [createUserMessage timestamp text, createAiMessage timestamp response,
         createErrorMessage timestamp errText],
      m.sender = "user" ∨ m.sender = "bot" ∨ m.sender = "ai" := by
  intro m hm
  rcases List.mem_append.mp hm with h1 | h2
  · simp only [createNewChatSession, List.mem_singleton] at h1
    subst h1
    right
    left
    rfl
  · simp only [List.mem_cons, List.not_mem_nil, or_false] at h2
    rcases h2 with h2 | h2 | h2
    · rw [h2]
      left
      rfl
    · rw [h2]
      right
      right
      rfl
    · rw [h2]
      right
      right
      rfl

/-- Instance of `createdMessage_sender_spec`: the welcome message
(sender `bot`) and a ChatArea AI reply (sender `ai`). -/
theorem createdMessage_sender_witness :
    welcomeMessage0 ∈ (createNewChatSession 0).messages ++
      [createUserMessage 0 "hi", createAiMessage 0 "ok", createErrorMessage 0 "boom"] ∧
    (welcomeMessage0.sender = "user" ∨ welcomeMessage0.sender = "bot" ∨
      welcomeMessage0.sender = "ai") ∧
    ((createAiMessage 0 "ok").sender = "user" ∨ (createAiMessage 0 "ok").sender = "bot" ∨
      (createAiMessage 0 "ok").sender = "ai") :=
  ⟨by decide,
   createdMessage_sender_spec 0 "hi" "ok" "boom" welcomeMessage0 (by decide),
   createdMessage_sender_spec 0 "hi" "ok" "boom" (createAiMessage 0 "ok") (by decide)⟩

/-- C7: `incrementStat` sets the named field to its previous value (0
when absent) plus the amount, and leaves every other numeric field and
the achievements list unchanged. -/
theorem incrementStat_frame_spec (s : UserStats) (statName : StatName) (amount : Int) :
    getStat (incrementStat s statName amount) statName
      = some ((getStat s statName).getD 0 + amount) ∧
    (∀ other : StatName, other ≠ statName →
      getStat (incrementStat s statName amount) other = getStat s other) ∧
    (incrementStat s statName amount).achievements = s.achievements := by
  refine ⟨?_, ?_, ?_⟩
  · cases statName <;> simp [incrementStat, getStat, setStat]
  · intro other hne
    cases statName <;> cases other <;> simp_all [incrementStat, getStat, setStat]
  · cases statName <;> simp [incrementStat, setStat]

/-- Instance of `incrementStat_frame_spec`: bumping `totalMessages`
leaves `totalChats` and the achievements untouched. -/
theorem incrementStat_frame_witness :
    getStat (incrementStat sampleStats .totalMessages 2) .totalMessages
      = some ((getStat sampleStats .totalMessages).getD 0 + 2) ∧
    StatName.totalChats ≠ StatName.totalMessages ∧
    getStat (incrementStat sampleStats .totalMessages 2) .totalChats
      = getStat sampleStats .totalChats ∧
    (incrementStat sampleStats .totalMessages 2).achievements = sampleStats.achievements :=
  ⟨(incrementStat_frame_spec sampleStats .totalMessages 2).1,
   by decide,
   (incrementStat_frame_spec sampleStats .totalMessages 2).2.1 .totalChats (by decide),
   (incrementStat_frame_spec sampleStats .totalMessages 2).2.2⟩

/-- C8: `updateStreakDays` leaves the stats entirely unchanged when last
active today; increments the streak by exactly one and stamps `now` when
last active yesterday; and otherwise resets the streak to 1 and stamps
`now`. -/
theorem updateStreakDays_spec (now : Int) (s : UserStats) :
    (s.lastActiveDate.map dayOf = some (dayOf now) →
      updateStreakDays now s = s) ∧
    (s.lastActiveDate.map dayOf ≠ some (dayOf now) →
      s.lastActiveDate.map dayOf = some (dayOf (now - msPerDay)) →
      updateStreakDays now s =
        { s with streakDays := some ((s.streakDays).getD 0 + 1),
                 lastActiveDate := some now }) ∧
    (s.lastActiveDate.map dayOf ≠ some (dayOf now) →
      s.lastActiveDate.map dayOf ≠ some (dayOf (now - msPerDay)) →
      updateStreakDays now s =
        { s with streakDays := some 1, lastActiveDate := some now }) := by
  refine ⟨?_, ?_, ?_⟩
  · intro h1
    simp [updateStreakDays, h1]
  · intro h1 h2
    have hne : dayOf (now - msPerDay) ≠ dayOf now := by
      intro heq
      exact h1 (by rw [h2, heq])
    simp [updateStreakDays, h1, h2, hne]
  · intro h1 h2
    simp [updateStreakDays, h1, h2]

/-- Instance of `updateStreakDays_spec` in the was-active-yesterday
case. -/
theorem updateStreakDays_spec_witness :
    streakStats.lastActiveDate.map dayOf ≠ some (dayOf nowW) ∧
    streakStats.lastActiveDate.map dayOf = some (dayOf (nowW - msPerDay)) ∧
    updateStreakDays nowW streakStats =
      { streakStats with streakDays := some ((streakStats.streakDays).getD 0 + 1),
                         lastActiveDate := some nowW } :=
  ⟨by decide, by decide,
   (updateStreakDays_spec nowW streakStats).2.1 (by decide) (by decide)⟩

/-- Helper: when sessions remain after the deletion, the new active id
is the id of one of them. -/
theorem calculateNextStateAfterDeletion_some (sessions : List ChatSession)
    (delId : String) (activeId : Option String) (u : ChatSession) (us : List ChatSession)
    (hu : sessions.filter (fun s => !(s.id == delId)) = u :: us) :
    ∃ a, (calculateNextStateAfterDeletion sessions delId activeId).2 = some a ∧
      ∃ s ∈ u :: us, s.id = a := by
  simp only [calculateNextStateAfterDeletion, hu]
  by_cases hact : activeId = some delId
  · rw [if_pos hact]
    rcases hidx : sessions.findIdx? (fun s => s.id == delId) with _ | idx
    · simp only [hidx]
      exact ⟨u.id, rfl, u, List.mem_cons_self u us, rfl⟩
    · simp only [hidx]
      rcases hget : (u :: us)[idx]? with _ | s
      · simp only [hget, List.getLast?_eq_getLast (u :: us) (by simp)]
        exact ⟨((u :: us).getLast (by simp)).id, rfl, (u :: us).getLast (by simp),
          List.getLast_mem (by simp), rfl⟩
      · simp only [hget]
        exact ⟨s.id, rfl, s, List.getElem?_mem hget, rfl⟩
  · rw [if_neg hact]
    rcases activeId with _ | a0
    · exact ⟨u.id, rfl, u, List.mem_cons_self u us, rfl⟩
    · rcases hany : (u :: us).any (fun s => s.id == a0) with _ | _
      · refine ⟨u.id, ?_, u, List.mem_cons_self u us, rfl⟩
        simp [hany]
      · rcases List.any_eq_true.mp hany with ⟨s, hs, hsid⟩
        refine ⟨a0, ?_, s, hs, by simpa using hsid⟩
        simp [hany]

/-- C2: the deletion logic removes exactly the sessions with the deleted
id, keeping the order; the new active id is `null` exactly when no
session remains, and otherwise names some remaining session; and when
the active session itself was deleted and found at an index, the session
at that index (or, past the end, the new last session) becomes
active. -/
theorem calculateNextStateAfterDeletion_spec (sessions : List ChatSession)
    (delId : String) (activeId : Option String) :
    (calculateNextStateAfterDeletion sessions delId activeId).1
      = sessions.filter (fun s => !(s.id == delId)) ∧
    ((calculateNextStateAfterDeletion sessions delId activeId).2 = none ↔
      (calculateNextStateAfterDeletion sessions delId activeId).1 = []) ∧
    (∀ a, (calculateNextStateAfterDeletion sessions delId activeId).2 = some a →
      ∃ s ∈ (calculateNextStateAfterDeletion sessions delId activeId).1, s.id = a) ∧
    (∀ idx, activeId = some delId →
      sessions.findIdx? (fun s => s.id == delId) = some idx →
      (calculateNextStateAfterDeletion sessions delId activeId).1 ≠ [] →
      (calculateNextStateAfterDeletion sessions delId activeId).2 =
        if idx < (calculateNextStateAfterDeletion sessions delId activeId).1.length then
          (((calculateNextStateAfterDeletion sessions delId activeId).1)[idx]?).map
            (fun s => s.id)
        else
          ((calculateNextStateAfterDeletion sessions delId activeId).1.getLast?).map
            (fun s => s.id)) := by
  refine ⟨rfl, ?_, ?_, ?_⟩
  · constructor
    · intro h
      rcases hu : sessions.filter (fun s => !(s.id == delId)) with _ | ⟨u, us⟩
      · exact hu
      · exfalso
        rcases calculateNextStateAfterDeletion_some sessions delId activeId u us hu with
          ⟨a, ha, _⟩
        rw [ha] at h
        cases h
    · intro h
      have h' : sessions.filter (fun s => !(s.id == delId)) = [] := h
      simp [calculateNextStateAfterDeletion, h']
  · intro a ha
    rcases hu : sessions.filter (fun s => !(s.id == delId)) with _ | ⟨u, us⟩
    · exfalso
      have : (calculateNextStateAfterDeletion sessions delId activeId).2 = none := by
        simp [calculateNextStateAfterDeletion, hu]
      rw [this] at ha
      cases ha
    · rcases calculateNextStateAfterDeletion_some sessions delId activeId u us hu with
        ⟨a', ha', s, hs, hsid⟩
      rw [ha'] at ha
      injection ha with haa
      refine ⟨s, ?_, by rw [hsid, haa]⟩
      show s ∈ sessions.filter (fun s => !(s.id == delId))
      rw [hu]
      exact hs
  · intro idx hact hidx hne
    have hne' : sessions.filter (fun s => !(s.id == delId)) ≠ [] := hne
    rcases hu : sessions.filter (fun s => !(s.id == delId)) with _ | ⟨u, us⟩
    · exact absurd hu hne'
    · show (calculateNextStateAfterDeletion sessions delId activeId).2 =
        if idx < (sessions.filter (fun s => !(s.id == delId))).length then
          ((sessions.filter (fun s => !(s.id == delId)))[idx]?).map (fun s => s.id)
        else
          ((sessions.filter (fun s => !(s.id == delId))).getLast?).map (fun s => s.id)
      simp only [calculateNextStateAfterDeletion, hu, if_pos hact, hidx]
      by_cases hlt : idx < (u :: us).length
      · rw [List.getElem?_eq_getElem hlt, if_pos hlt]
        rfl
      · rw [List.getElem?_eq_none (Nat.le_of_not_lt hlt), if_neg hlt]

/-- Instance of `calculateNextStateAfterDeletion_spec`: deleting the
active middle session of three promotes the session at the same
index. -/
theorem calculateNextStateAfterDeletion_witness :
    (calculateNextStateAfterDeletion sessionsW "b" (some "b")).1
      = sessionsW.filter (fun s => !(s.id == "b")) ∧
    ((calculateNextStateAfterDeletion sessionsW "b" (some "b")).2 = none ↔
      (calculateNextStateAfterDeletion sessionsW "b" (some "b")).1 = []) ∧
    sessionsW.findIdx? (fun s => s.id == "b") = some 1 ∧
    (calculateNextStateAfterDeletion sessionsW "b" (some "b")).1 ≠ [] ∧
    (calculateNextStateAfterDeletion sessionsW "b" (some "b")).2 =
      if 1 < (calculateNextStateAfterDeletion sessionsW "b" (some "b")).1.length then
        (((calculateNextStateAfterDeletion sessionsW "b" (some "b")).1)[1]?).map
          (fun s => s.id)
      else
        ((calculateNextStateAfterDeletion sessionsW "b" (some "b")).1.getLast?).map
          (fun s => s.id) :=
  ⟨(calculateNextStateAfterDeletion_spec sessionsW "b" (some "b")).1,
   (calculateNextStateAfterDeletion_spec sessionsW "b" (some "b")).2.1,
   by decide, by decide,
   (calculateNextStateAfterDeletion_spec sessionsW "b" (some "b")).2.2.2 1 rfl
     (by decide) (by decide)⟩

/-- Helper: with pairwise-distinct rule ids, the `checkAchievements`
loop returns exactly the rules whose condition holds and whose id is not
in the incoming list, and appends their ids in order. -/
theorem checkAchievementsLoop_spec (stats : UserStats) :
    ∀ (rules : List AchievementRule) (current : List String),
      (rules.map (fun a => a.id)).Nodup →
      checkAchievementsLoop stats rules current =
        (rules.filter (fun a => !(current.contains a.id) && a.cond stats),
         current ++
           (rules.filter (fun a => !(current.contains a.id) && a.cond stats)).map
             (fun a => a.id)) := by
  intro rules
  induction rules with
  | nil => intro current _; simp [checkAchievementsLoop]
  | cons a rest ih =>
    intro current hnodup
    rw [List.map_cons, List.nodup_cons] at hnodup
    rcases hnodup with ⟨hnd1, hnd2⟩
    rcases hc : !(current.contains a.id) && a.cond stats with _ | _
    · simp only [checkAchievementsLoop, hc, Bool.false_eq_true, if_false,
        List.filter_cons, ih current hnd2]
    · have hcongr :
          rest.filter (fun b => !((current ++ [a.id]).contains b.id) && b.cond stats) =
          rest.filter (fun b => !(current.contains b.id) && b.cond stats) := by
        refine List.filter_congr ?_
        intro b hb
        have hbne : b.id ≠ a.id := by
          intro he
          exact hnd1 (he ▸ List.mem_map_of_mem (fun r => r.id) hb)
        simp [List.contains, List.elem_eq_mem, List.mem_append, hbne]
      simp only [checkAchievementsLoop, hc, if_true, ih (current ++ [a.id]) hnd2, hcongr,
        List.filter_cons, List.map_cons, List.append_assoc, List.singleton_append]

/-- C3: `checkAchievements` evaluates a fixed table of exactly ten
threshold rules; it returns exactly the rules whose condition holds on
the stats and whose id is not already earned; it appends those ids to
the achievements list; and a later call on stats carrying the grown list
never returns an achievement from the earlier call again. -/
theorem checkAchievements_spec (stats : UserStats) :
    achievementsTable.length = 10 ∧
    (checkAchievements stats).1 =
      achievementsTable.filter
        (fun a => !(stats.achievements.contains a.id) && a.cond stats) ∧
    (checkAchievements stats).2.achievements =
      stats.achievements ++ ((checkAchievements stats).1.map (fun a => a.id)) ∧
    (∀ s' : UserStats, s'.achievements = (checkAchievements stats).2.achievements →
      ∀ a ∈ (checkAchievements s').1,
        a.id ∉ (checkAchievements stats).1.map (fun b => b.id)) := by
  have hnodup : (achievementsTable.map (fun a => a.id)).Nodup := by decide
  have hloop := checkAchievementsLoop_spec stats achievementsTable stats.achievements hnodup
  have hA : (checkAchievements stats).1 =
      achievementsTable.filter
        (fun a => !(stats.achievements.contains a.id) && a.cond stats) := by
    simp only [checkAchievements, hloop]
  have hB : (checkAchievements stats).2.achievements =
      stats.achievements ++ ((checkAchievements stats).1.map (fun a => a.id)) := by
    by_cases hF : (achievementsTable.filter
        (fun a => !(stats.achievements.contains a.id) && a.cond stats)) = []
    · have h2 : (checkAchievements stats).2 = stats := by
        simp only [checkAchievements, hloop, hF, List.isEmpty_nil, if_true]
      rw [h2, hA, hF]
      simp
    · have hne : ((achievementsTable.filter
          (fun a => !(stats.achievements.contains a.id) && a.cond stats)).isEmpty) = false := by
        rw [Bool.eq_false_iff]
        intro h
        exact hF (List.isEmpty_iff.mp h)
      have h2 : (checkAchievements stats).2 =
          { stats with achievements := stats.achievements ++
              ((achievementsTable.filter
                (fun a => !(stats.achievements.contains a.id) && a.cond stats)).map
                  (fun a => a.id)) } := by
        simp only [checkAchievements, hloop, hne, Bool.false_eq_true, if_false]
      rw [h2, hA]
  refine ⟨by decide, hA, hB, ?_⟩
  intro s' hs' a ha
  have hloop' := checkAchievementsLoop_spec s' achievementsTable s'.achievements hnodup
  have hA' : (checkAchievements s').1 =
      achievementsTable.filter
        (fun a => !(s'.achievements.contains a.id) && a.cond s') := by
    simp only [checkAchievements, hloop']
  rw [hA'] at ha
  have ha' := List.mem_filter.mp ha
  have hnotin : a.id ∉ s'.achievements := by
    have hb := ha'.2
    rw [Bool.and_eq_true] at hb
    have := hb.1
    simpa [List.contains, List.elem_eq_mem] using this
  intro hmem
  apply hnotin
  rw [hs', hB]
  exact List.mem_append_right _ hmem

/-- Instance of `checkAchievements_spec`: a second call on the stats
persisted by a first call does not re-award the first call's
achievements. -/
theorem checkAchievements_spec_witness :
    statsAfterFirst.achievements = (checkAchievements sampleStats).2.achievements ∧
    marathonChatterRule ∈ (checkAchievements statsAfterFirst).1 ∧
    marathonChatterRule.id ∉ ((checkAchievements sampleStats).1.map (fun b => b.id)) := by
  have hsingle : (checkAchievements statsAfterFirst).1 = [marathonChatterRule] := rfl
  refine ⟨rfl, ?_, ?_⟩
  · rw [hsingle]
    exact List.mem_singleton_self _
  · exact (checkAchievements_spec sampleStats).2.2.2 statsAfterFirst rfl marathonChatterRule
      (by rw [hsingle]; exact List.mem_singleton_self _)

/-- Helper: a sum of squares of rationals is non-negative. -/
theorem sumSq_nonneg (v : List Rat) : 0 ≤ (v.map (fun x => x * x)).sum := by
  apply List.sum_nonneg
  intro x hx
  rcases List.mem_map.mp hx with ⟨y, _, rfl⟩
  exact mul_self_nonneg y

/-- Helper: the dot product of entrywise non-negative vectors is
non-negative. -/
theorem dotProduct_nonneg : ∀ (v1 v2 : List Rat),
    (∀ a ∈ v1, 0 ≤ a) → (∀ b ∈ v2, 0 ≤ b) →
    0 ≤ (List.zipWith (fun a b => a * b) v1 v2).sum
  | [], _, _, _ => by simp
  | _ :: _, [], _, _ => by simp
  | a :: v1, b :: v2, h1, h2 => by
    simp only [List.zipWith_cons_cons, List.sum_cons]
    have ha := h1 a (List.mem_cons_self _ _)
    have hb := h2 b (List.mem_cons_self _ _)
    have ih := dotProduct_nonneg v1 v2 (fun x hx => h1 x (List.mem_cons_of_mem _ hx))
      (fun x hx => h2 x (List.mem_cons_of_mem _ hx))
    exact add_nonneg (mul_nonneg ha hb) ih

/-- C10: `cosineSimilarity` is total and guarded: it returns 0 on a
length mismatch and 0 when either norm is zero; with `Math.sqrt`
positive on positives the guarded division never sees a zero
denominator; and on equal-length entrywise non-negative vectors the
result is non-negative. -/
theorem cosineSimilarity_safety_spec (sqrtQ : Rat → Rat) (vec1 vec2 : List Rat) :
    (vec1.length ≠ vec2.length → cosineSimilarity sqrtQ vec1 vec2 = 0) ∧
    ((vec1.map (fun x => x * x)).sum = 0 ∨ (vec2.map (fun x => x * x)).sum = 0 →
      cosineSimilarity sqrtQ vec1 vec2 = 0) ∧
    ((∀ x, 0 < x → 0 < sqrtQ x) →
      (vec1.map (fun x => x * x)).sum ≠ 0 → (vec2.map (fun x => x * x)).sum ≠ 0 →
      sqrtQ ((vec1.map (fun x => x * x)).sum) * sqrtQ ((vec2.map (fun x => x * x)).sum) ≠ 0) ∧
    ((∀ x, 0 ≤ sqrtQ x) → vec1.length = vec2.length →
      (∀ a ∈ vec1, 0 ≤ a) → (∀ b ∈ vec2, 0 ≤ b) →
      0 ≤ cosineSimilarity sqrtQ vec1 vec2) := by
  refine ⟨?_, ?_, ?_, ?_⟩
  · intro h
    simp [cosineSimilarity, h]
  · intro h
    by_cases hlen : vec1.length ≠ vec2.length
    · simp [cosineSimilarity, hlen]
    · simp [cosineSimilarity, hlen, h]
  · intro hpos h1 h2
    have p1 : 0 < sqrtQ ((vec1.map (fun x => x * x)).sum) :=
      hpos _ (lt_of_le_of_ne (sumSq_nonneg vec1) (Ne.symm h1))
    have p2 : 0 < sqrtQ ((vec2.map (fun x => x * x)).sum) :=
      hpos _ (lt_of_le_of_ne (sumSq_nonneg vec2) (Ne.symm h2))
    exact (mul_pos p1 p2).ne'
  · intro hnn hlen h1 h2
    have hlen' : ¬ (vec1.length ≠ vec2.length) := fun h => h hlen
    by_cases hz : (vec1.map (fun x => x * x)).sum = 0 ∨ (vec2.map (fun x => x * x)).sum = 0
    · simp [cosineSimilarity, hlen', hz]
    · simp only [cosineSimilarity, if_neg hlen', if_neg hz]
      exact div_nonneg (dotProduct_nonneg vec1 vec2 h1 h2)
        (mul_nonneg (hnn _) (hnn _))

/-- Instance of `cosineSimilarity_safety_spec` on concrete vectors. -/
theorem cosineSimilarity_safety_witness :
    ([(1 : Rat)].length ≠ ([] : List Rat).length) ∧
    cosineSimilarity absQ [(1 : Rat)] [] = 0 ∧
    (∀ a ∈ [(1 : Rat), 2], 0 ≤ a) ∧
    0 ≤ cosineSimilarity absQ [(1 : Rat), 2] [(2 : Rat), 3] :=
  ⟨by decide,
   (cosineSimilarity_safety_spec absQ [(1 : Rat)] []).1 (by decide),
   by decide,
   (cosineSimilarity_safety_spec absQ [(1 : Rat), 2] [(2 : Rat), 3]).2.2.2
     (fun x => abs_nonneg x) rfl (by decide) (by decide)⟩

/-- Helper: the filter / sort / slice pipeline returns at most `limit`
results, keeps only similarities above the threshold, and is sorted by
descending similarity. -/
theorem rankResults_spec (sqrtQ : Rat → Rat) (qe : List Rat)
    (embeddings : List EmbeddingRecord) (limit : Nat) :
    (rankResults sqrtQ qe embeddings limit).length ≤ limit ∧
    (∀ r ∈ rankResults sqrtQ qe embeddings limit, (1 : Rat) / 10 < r.similarity) ∧
    List.Pairwise (fun a b => b.similarity ≤ a.similarity)
      (rankResults sqrtQ qe embeddings limit) := by
  refine ⟨?_, ?_, ?_⟩
  · exact List.length_take_le limit _
  · intro r hr
    have hr' := (List.take_sublist limit _).subset hr
    have hr'' := (List.mergeSort_perm _ _).mem_iff.mp hr'
    have hmem := List.mem_filter.mp hr''
    exact of_decide_eq_true hmem.2
  · have hs := @List.sorted_mergeSort SearchResult
      (fun a b : SearchResult => decide (b.similarity ≤ a.similarity))
      (fun a b c h1 h2 => by
        simp only [decide_eq_true_eq] at *
        exact le_trans h2 h1)
      (fun a b => by
        simpa using le_total b.similarity a.similarity)
      ((embeddings.map (fun e =>
          { toEmbeddingRecord := e,
            similarity := cosineSimilarity sqrtQ qe e.embedding })).filter
        (fun r => decide ((1 : Rat) / 10 < r.similarity)))
    have hs' := hs.imp (fun h => of_decide_eq_true h)
    exact hs'.sublist (List.take_sublist limit _)

/-- C5: `semanticSearch` returns the empty list on a missing or
too-short query and when the storage read throws; otherwise it returns
at most `limit` results, each with similarity strictly above 0.1, in
descending similarity order. -/
theorem semanticSearch_spec (sqrtQ : Rat → Rat) (st : EmbState) (query chatId : Option String)
    (fetch : Except String (List EmbeddingRecord)) (limit : Nat) :
    (query = none → semanticSearch sqrtQ st query chatId fetch limit = []) ∧
    (∀ q, query = some q → q.length < 3 →
      semanticSearch sqrtQ st query chatId fetch limit = []) ∧
    (∀ e, fetch = Except.error e → semanticSearch sqrtQ st query chatId fetch limit = []) ∧
    (semanticSearch sqrtQ st query chatId fetch limit).length ≤ limit ∧
    (∀ r ∈ semanticSearch sqrtQ st query chatId fetch limit, (1 : Rat) / 10 < r.similarity) ∧
    List.Pairwise (fun a b => b.similarity ≤ a.similarity)
      (semanticSearch sqrtQ st query chatId fetch limit) := by
  have hmain : semanticSearch sqrtQ st query chatId fetch limit = [] ∨
      ∃ qe embeddings, semanticSearch sqrtQ st query chatId fetch limit =
        rankResults sqrtQ qe embeddings limit := by
    rcases query with _ | q
    · exact Or.inl rfl
    · by_cases hq : q.length < 3
      · exact Or.inl (by simp [semanticSearch, hq])
      · rcases chatId with _ | c
        · exact Or.inr ⟨generateEmbedding st q, [], by simp [semanticSearch, hq]⟩
        · rcases fetch with e | embeddings
          · exact Or.inl (by simp [semanticSearch, hq])
          · exact Or.inr ⟨generateEmbedding st q, embeddings, by simp [semanticSearch, hq]⟩
  refine ⟨?_, ?_, ?_, ?_, ?_, ?_⟩
  · intro h
    subst h
    rfl
  · intro q hq hlt
    subst hq
    simp [semanticSearch, hlt]
  · intro e he
    subst he
    rcases query with _ | q
    · rfl
    · by_cases hq : q.length < 3
      · simp [semanticSearch, hq]
      · rcases chatId with _ | c
        · simp [semanticSearch, hq, rankResults]
        · simp [semanticSearch, hq]
  · rcases hmain with h | ⟨qe, em, h⟩
    · simp [h]
    · rw [h]
      exact (rankResults_spec sqrtQ qe em limit).1
  · rcases hmain with h | ⟨qe, em, h⟩
    · simp [h]
    · rw [h]
      exact (rankResults_spec sqrtQ qe em limit).2.1
  · rcases hmain with h | ⟨qe, em, h⟩
    · simp [h]
    · rw [h]
      exact (rankResults_spec sqrtQ qe em limit).2.2

/-- Instance of `semanticSearch_spec`: a query below three characters
yields no results, and a failing storage read yields no results. -/
theorem semanticSearch_spec_witness :
    ("hi" : String).length < 3 ∧
    semanticSearch absQ emptyEmbState (some "hi") (some "c1") (Except.ok []) 10 = [] ∧
    semanticSearch absQ emptyEmbState (some "hello") (some "c1")
      (Except.error "storage failure") 10 = [] :=
  ⟨by decide,
   (semanticSearch_spec absQ emptyEmbState (some "hi") (some "c1") (Except.ok []) 10).2.1
     "hi" rfl (by decide),
   (semanticSearch_spec absQ emptyEmbState (some "hello") (some "c1")
     (Except.error "storage failure") 10).2.2.1 "storage failure" rfl⟩

/-- C6: `generateEmbedding` is not a function of the text alone: the
same text embeds to the all-zero vector under the empty vocabulary, but
to a vector with a non-zero entry after `updateIDF` has been applied to
two other documents — so a stored vector's meaning changes when the
vocabulary evolves.  The hypothesis `log 2 ≠ 0` is the relevant fact
about `Math.log`. -/
theorem generateEmbedding_vocab_dependence (log : Rat → Rat) (h2 : log 2 ≠ 0) :
    generateEmbedding emptyEmbState "banana" ≠
    generateEmbedding
      (updateIDF log (updateIDF log emptyEmbState (tokenize "apple banana"))
        (tokenize "apple")) "banana" := by
  intro heq
  have hL : generateEmbedding emptyEmbState "banana" = List.replicate 100 (0 : Rat) := rfl
  have hR : generateEmbedding
      (updateIDF log (updateIDF log emptyEmbState (tokenize "apple banana"))
        (tokenize "apple")) "banana"
      = (0 * log (((2 : Nat) : Rat) / ((2 : Nat) : Rat))) ::
        (((0 + 1) / ((1 : Nat) : Rat)) * log (((2 : Nat) : Rat) / ((1 : Nat) : Rat))) ::
        List.replicate 98 (0 : Rat) := rfl
  rw [hL, hR] at heq
  have h1 := congrArg (fun l => l.getD 1 0) heq
  have hL' : (List.replicate 100 (0 : Rat)).getD 1 0 = 0 := rfl
  have hR' : ((0 * log (((2 : Nat) : Rat) / ((2 : Nat) : Rat))) ::
        (((0 + 1) / ((1 : Nat) : Rat)) * log (((2 : Nat) : Rat) / ((1 : Nat) : Rat))) ::
        List.replicate 98 (0 : Rat)).getD 1 0
      = ((0 + 1) / ((1 : Nat) : Rat)) * log (((2 : Nat) : Rat) / ((1 : Nat) : Rat)) := rfl
  simp only [hL', hR'] at h1
  have hB : ((0 : Rat) + 1) / ((1 : Nat) : Rat) = 1 := by norm_num
  have hC : (((2 : Nat) : Rat) / ((1 : Nat) : Rat)) = 2 := by norm_num
  rw [hB, hC, one_mul] at h1
  exact h2 h1.symm

/-- Instance of `generateEmbedding_vocab_dependence` at a concrete
stand-in for `Math.log`. -/
theorem generateEmbedding_vocab_dependence_witness :
    logTest 2 ≠ 0 ∧
    generateEmbedding emptyEmbState "banana" ≠
    generateEmbedding
      (updateIDF logTest (updateIDF logTest emptyEmbState (tokenize "apple banana"))
        (tokenize "apple")) "banana" :=
  ⟨by norm_num [logTest],
   generateEmbedding_vocab_dependence logTest (by norm_num [logTest])⟩

/-- Helper: `takeWord` splits its input. -/
theorem takeWord_append : ∀ s : List Char, (takeWord s).1 ++ (takeWord s).2 = s := by
  intro s
  induction s with
  | nil => rfl
  | cons c cs ih =>
    by_cases hc : isWordChar c = true
    · simp [takeWord, hc, ih]
    · simp [takeWord, hc]

/-- Helper: `takeWord` returns only word characters. -/
theorem takeWord_word : ∀ s : List Char, (takeWord s).1.all isWordChar = true := by
  intro s
  induction s with
  | nil => rfl
  | cons c cs ih =>
    by_cases hc : isWordChar c = true
    · simp [takeWord, hc]
      exact List.all_eq_true.mp ih
    · simp [takeWord, hc]

/-- Helper: a successful `findClose` splits its input as the (fence-free
up to this point) content, the closing fence and the remainder. -/
theorem findClose_spec : ∀ (n : Nat) (s content rest : List Char), s.length ≤ n →
    findClose s = some (content, rest) → s = content ++ fence ++ rest := by
  intro n
  induction n with
  | zero =>
    intro s content rest hlen h
    rcases s with _ | ⟨c1, s⟩
    · exact absurd h (by simp [findClose])
    · simp at hlen
  | succ n ih =>
    intro s content rest hlen h
    rcases s with _ | ⟨c1, _ | ⟨c2, _ | ⟨c3, r⟩⟩⟩
    · exact absurd h (by simp [findClose])
    · exact absurd h (by simp [findClose])
    · exact absurd h (by simp [findClose])
    · by_cases hb : (c1 == backtick && c2 == backtick && c3 == backtick) = true
      · rw [findClose, if_pos hb] at h
        injection h with h'
        injection h' with hcontent hrest
        subst hcontent
        subst hrest
        have hb' := hb
        simp only [Bool.and_eq_true, beq_iff_eq] at hb'
        rcases hb' with ⟨⟨e1, e2⟩, e3⟩
        subst e1; subst e2; subst e3
        rfl
      · rw [findClose, if_neg hb] at h
        rcases hrec : findClose (c2 :: c3 :: r) with _ | ⟨p1, p2⟩
        · rw [hrec] at h
          exact absurd h (by simp)
        · rw [hrec] at h
          injection h with h'
          injection h' with hcontent hrest
          subst hcontent
          subst hrest
          have := ih (c2 :: c3 :: r) p1 p2 (by simpa using Nat.le_of_succ_le_succ hlen) hrec
          show c1 :: c2 :: c3 :: r = (c1 :: p1) ++ fence ++ p2
          simp only [List.cons_append]
          rw [← this]

/-- Helper: `takeNewline` splits its input and consumes at most one
newline. -/
theorem takeNewline_spec (s : List Char) :
    (takeNewline s).1 ++ (takeNewline s).2 = s ∧
    ((takeNewline s).1 = [] ∨ (takeNewline s).1 = ['\n']) := by
  rcases s with _ | ⟨c, r⟩
  · exact ⟨rfl, Or.inl rfl⟩
  · by_cases hc : (c == '\n') = true
    · have hc2 : c = '\n' := by simpa using hc
      subst hc2
      simp [takeNewline]
    · simp [takeNewline, hc]

/-- Helper: a successful match at the head of the text yields a
well-formed block whose full match is a prefix of the text, and
consumes at least the two fences. -/
theorem matchBlockAt_spec (s : List Char) (b : CodeBlock) (rest : List Char)
    (h : matchBlockAt s = some (b, rest)) :
    BlockWF b ∧ s = b.fullMatch.data ++ rest ∧ rest.length < s.length := by
  rcases s with _ | ⟨c1, _ | ⟨c2, _ | ⟨c3, r⟩⟩⟩
  · exact absurd h (by simp [matchBlockAt])
  · exact absurd h (by simp [matchBlockAt])
  · exact absurd h (by simp [matchBlockAt])
  · by_cases hb : (c1 == backtick && c2 == backtick && c3 == backtick) = true
    · simp only [matchBlockAt] at h
      rw [if_pos hb] at h
      have hb2 := hb
      simp only [Bool.and_eq_true, beq_iff_eq] at hb2
      rcases hb2 with ⟨⟨e1, e2⟩, e3⟩
      subst e1; subst e2; subst e3
      rcases hw : takeWord r with ⟨w1, w2⟩
      simp only [hw] at h
      have hr : r = w1 ++ w2 := by
        conv_lhs => rw [← takeWord_append r]
        rw [hw]
      have hword : w1.all isWordChar = true := by
        have hword2 := takeWord_word r
        rw [hw] at hword2
        exact hword2
      rcases hnl : takeNewline w2 with ⟨nl1, nl2⟩
      simp only [hnl] at h
      have hnlapp : nl1 ++ nl2 = w2 := by
        have hna := (takeNewline_spec w2).1
        rw [hnl] at hna
        exact hna
      have hnlshape : nl1 = [] ∨ nl1 = ['\n'] := by
        have hns := (takeNewline_spec w2).2
        rw [hnl] at hns
        exact hns
      rcases hfc : findClose nl2 with _ | ⟨content, rest'⟩
      · simp [hfc] at h
      · simp only [hfc, Option.some.injEq, Prod.mk.injEq] at h
        rcases h with ⟨hblock, hrest⟩
        subst hblock
        have hr2 : nl2 = content ++ fence ++ rest' :=
          findClose_spec nl2.length nl2 content rest' (le_refl _) hfc
        have hs : backtick :: backtick :: backtick :: r =
            (fence ++ w1 ++ nl1 ++ content ++ fence) ++ rest := by
          rw [hr, ← hnlapp, hr2, hrest]
          simp [fence, List.append_assoc]
        refine ⟨⟨w1, nl1, content, rfl, hword, hnlshape, rfl, rfl⟩, hs, ?_⟩
        rw [hs]
        simp [fence]
        omega
    · simp only [matchBlockAt] at h
      rw [if_neg hb] at h
      exact absurd h (by simp)

/-- Helper: prepending a character to the first gap prepends it to the
alternation. -/
theorem joinAlt_cons (c : Char) (g : List Char) (gs ms : List (List Char)) :
    joinAlt ((c :: g) :: gs) ms = c :: joinAlt (g :: gs) ms := by
  cases ms <;> simp [joinAlt]

/-- Helper: the scanner's output decomposes the text into alternating
gaps and full matches, and every emitted block is well-formed. -/
theorem scanBlocks_spec : ∀ (fuel : Nat) (s : List Char), s.length ≤ fuel →
    (∃ gaps : List (List Char), gaps.length = (scanBlocks fuel s).length + 1 ∧
      s = joinAlt gaps ((scanBlocks fuel s).map (fun b => b.fullMatch.data))) ∧
    (∀ b ∈ scanBlocks fuel s, BlockWF b) := by
  intro fuel
  induction fuel with
  | zero =>
    intro s hlen
    have hs : s = [] := List.length_eq_zero.mp (Nat.le_zero.mp hlen)
    subst hs
    exact ⟨⟨[[]], by simp [scanBlocks], by simp [scanBlocks, joinAlt]⟩,
      by simp [scanBlocks]⟩
  | succ fuel ih =>
    intro s hlen
    rcases hm : matchBlockAt s with _ | ⟨b, rest⟩
    · rcases s with _ | ⟨c, t⟩
      · exact ⟨⟨[[]], by simp [scanBlocks, matchBlockAt], by simp [scanBlocks, matchBlockAt, joinAlt]⟩,
          by simp [scanBlocks, matchBlockAt]⟩
      · have hlen' : t.length ≤ fuel := by
          simp at hlen
          omega
        obtain ⟨⟨gaps, hglen, hjoin⟩, hwf⟩ := ih t hlen'
        have hscan : scanBlocks (fuel + 1) (c :: t) = scanBlocks fuel t := by
          simp [scanBlocks, hm]
        rcases gaps with _ | ⟨g, gs⟩
        · simp at hglen
        · refine ⟨⟨(c :: g) :: gs, ?_, ?_⟩, ?_⟩
          · simpa [hscan] using hglen
          · rw [hscan, joinAlt_cons, ← hjoin]
          · intro b' hb'
            rw [hscan] at hb'
            exact hwf b' hb'
    · obtain ⟨hwfb, hsplit, hlt⟩ := matchBlockAt_spec s b rest hm
      have hlen' : rest.length ≤ fuel := by omega
      obtain ⟨⟨gaps, hglen, hjoin⟩, hwf⟩ := ih rest hlen'
      have hscan : scanBlocks (fuel + 1) s = b :: scanBlocks fuel rest := by
        simp [scanBlocks, hm]
      refine ⟨⟨[] :: gaps, ?_, ?_⟩, ?_⟩
      · simp only [hscan, List.length_cons]
        omega
      · rw [hscan]
        simp only [List.map_cons, joinAlt, List.nil_append]
        rw [← hjoin]
        exact hsplit
      · intro b' hb'
        rw [hscan] at hb'
        rcases List.mem_cons.mp hb' with h1 | h2
        · rw [h1]
          exact hwfb
        · exact hwf b' h2

/-- Helper: without a triple backtick no match can start. -/
theorem matchBlockAt_of_no_fence (s : List Char) (h : hasFence s = false) :
    matchBlockAt s = none := by
  rcases s with _ | ⟨c1, _ | ⟨c2, _ | ⟨c3, r⟩⟩⟩
  · rfl
  · rfl
  · rfl
  · simp only [hasFence, Bool.or_eq_false_iff] at h
    simp [matchBlockAt, h.1]

/-- Helper: dropping the head preserves the absence of a fence. -/
theorem hasFence_cons (c : Char) (t : List Char) (h : hasFence (c :: t) = false) :
    hasFence t = false := by
  rcases t with _ | ⟨c2, _ | ⟨c3, r⟩⟩
  · rfl
  · rfl
  · simp only [hasFence, Bool.or_eq_false_iff] at h
    exact h.2

/-- Helper: a text with no triple backtick produces no blocks. -/
theorem scanBlocks_no_fence : ∀ (fuel : Nat) (s : List Char), hasFence s = false →
    scanBlocks fuel s = [] := by
  intro fuel
  induction fuel with
  | zero => intro s _; rfl
  | succ fuel ih =>
    intro s h
    have hm := matchBlockAt_of_no_fence s h
    rcases s with _ | ⟨c, t⟩
    · simp [scanBlocks, hm]
    · have : scanBlocks (fuel + 1) (c :: t) = scanBlocks fuel t := by
        simp [scanBlocks, hm]
      rw [this]
      exact ih t (hasFence_cons c t h)

/-- Helper: the scanner realises the `Scan` relation — it emits the
match at every position where one starts and skips exactly the
positions where none does. -/
theorem scanBlocks_scan : ∀ (fuel : Nat) (s : List Char), s.length ≤ fuel →
    Scan s (scanBlocks fuel s) := by
  intro fuel
  induction fuel with
  | zero =>
    intro s hlen
    have hs : s = [] := List.length_eq_zero.mp (Nat.le_zero.mp hlen)
    subst hs
    exact Scan.nil
  | succ fuel ih =>
    intro s hlen
    rcases hm : matchBlockAt s with _ | ⟨b, rest⟩
    · rcases s with _ | ⟨c, t⟩
      · exact Scan.nil
      · have hscan : scanBlocks (fuel + 1) (c :: t) = scanBlocks fuel t := by
          simp [scanBlocks, hm]
        rw [hscan]
        have hlen2 : t.length ≤ fuel := by
          simp at hlen
          omega
        exact Scan.skip c t _ hm (ih t hlen2)
    · obtain ⟨_, _, hlt⟩ := matchBlockAt_spec s b rest hm
      have hscan : scanBlocks (fuel + 1) s = b :: scanBlocks fuel rest := by
        simp [scanBlocks, hm]
      rw [hscan]
      have hlen2 : rest.length ≤ fuel := by omega
      exact Scan.found s b rest _ hm (ih rest hlen2)

/-- Helper: if no block starts anywhere, the scanner returns nothing. -/
theorem scanBlocks_nil_of_noBlock : ∀ (fuel : Nat) (s : List Char),
    noBlockAnywhere s = true → scanBlocks fuel s = [] := by
  intro fuel
  induction fuel with
  | zero => intro s _; rfl
  | succ fuel ih =>
    intro s h
    rcases s with _ | ⟨c, t⟩
    · rfl
    · simp only [noBlockAnywhere, Bool.and_eq_true, Option.isNone_iff_eq_none] at h
      have hscan : scanBlocks (fuel + 1) (c :: t) = scanBlocks fuel t := by
        simp [scanBlocks, h.1]
      rw [hscan]
      exact ih t h.2

/-- Helper: if the scanner returns nothing, no block starts anywhere. -/
theorem noBlock_of_scanBlocks_nil : ∀ (fuel : Nat) (s : List Char), s.length ≤ fuel →
    scanBlocks fuel s = [] → noBlockAnywhere s = true := by
  intro fuel
  induction fuel with
  | zero =>
    intro s hlen _
    have hs : s = [] := List.length_eq_zero.mp (Nat.le_zero.mp hlen)
    subst hs
    rfl
  | succ fuel ih =>
    intro s hlen hnil
    rcases s with _ | ⟨c, t⟩
    · rfl
    · rcases hm : matchBlockAt (c :: t) with _ | ⟨b, rest⟩
      · have hscan : scanBlocks (fuel + 1) (c :: t) = scanBlocks fuel t := by
          simp [scanBlocks, hm]
        rw [hscan] at hnil
        have hlen2 : t.length ≤ fuel := by
          simp at hlen
          omega
        simp only [noBlockAnywhere, Bool.and_eq_true, Option.isNone_iff_eq_none]
        exact ⟨hm, ih t hlen2 hnil⟩
      · exfalso
        have hscan : scanBlocks (fuel + 1) (c :: t) = b :: scanBlocks fuel rest := by
          simp [scanBlocks, hm]
        rw [hscan] at hnil
        cases hnil

/-- C9: `extractCodeBlocks` returns one entry per fenced block: its
output realises the `Scan` relation, so a block is emitted exactly at
every position where one matches and no match starts at any skipped
position (completeness); the output is empty precisely when no block
starts anywhere — which covers texts with an unclosed fence; the
entries decompose the text in order of occurrence (gaps alternating
with the full matches); and every entry is a fence-delimited block
whose language is the word tag (or `text` when absent) and whose code
is the trimmed fenced content. -/
theorem extractCodeBlocks_spec (text : String) :
    (noBlockAnywhere text.data = true ↔ extractCodeBlocks text = []) ∧
    Scan text.data (extractCodeBlocks text) ∧
    (∃ gaps : List (List Char), gaps.length = (extractCodeBlocks text).length + 1 ∧
      text.data = joinAlt gaps ((extractCodeBlocks text).map (fun b => b.fullMatch.data))) ∧
    (∀ b ∈ extractCodeBlocks text, BlockWF b) := by
  refine ⟨⟨?_, ?_⟩, ?_, ?_, ?_⟩
  · intro h
    exact scanBlocks_nil_of_noBlock text.data.length text.data h
  · intro h
    exact noBlock_of_scanBlocks_nil text.data.length text.data (le_refl _) h
  · exact scanBlocks_scan text.data.length text.data (le_refl _)
  · exact (scanBlocks_spec text.data.length text.data (le_refl _)).1
  · exact (scanBlocks_spec text.data.length text.data (le_refl _)).2

/-- Instance of `extractCodeBlocks_spec`: a text with a single unclosed
fence contains no block and yields no entries. -/
theorem extractCodeBlocks_spec_witness :
    noBlockAnywhere ("open ``` only" : String).data = true ∧
    extractCodeBlocks "open ``` only" = [] :=
  ⟨by decide, (extractCodeBlocks_spec "open ``` only").1.1 (by decide)⟩
